import Mathlib

/-!
Verification of the starquery repository (github stargazer cache).

Shallow embedding of:
  * the key-value store interface `kv.Store` and its in-memory
    implementation (`kv` package, `memory` type);
  * the HTTP handlers `handleWebhook` and `handleStarredByUser`
    (`starquery.go`);
  * the post-decode logic of `fetchStargazersFromGitHub` and the pagination
    sweep `fetchByRepo` (`starquery.go`).

External collaborators (the Go standard library HTTP stack, the go-github
payload validation and parsing helpers, `time.Parse`, the network) are
modelled as oracle inputs; everything the repository itself computes is
translated from the source.
-/

namespace Starquery

/-! ## Data model (starquery.go) -/

/-- `Repo` from starquery.go: `{Owner string; Name string}`. -/
structure Repo where
  owner : String
  name : String
deriving DecidableEq, Repr

/-- `Repo.Key` from starquery.go:
`fmt.Sprintf("stargazers:%s/%s/%s", r.Owner, r.Name, username)`. -/
def Repo.Key (r : Repo) (username : String) : String :=
  "stargazers:" ++ r.owner ++ "/" ++ r.name ++ "/" ++ username

/-- `Stargazer` from starquery.go: `{Login string; Cursor string}`. -/
structure Stargazer where
  login : String
  cursor : String
deriving DecidableEq, Repr

/-- Model of Go `time.Time` restricted to what the source uses: seconds
from Go's zero time. `time.Time{}` (the zero value) is `sec = 0`; any
RFC3339 timestamp the upstream API can send parses to a positive value. -/
structure GoTime where
  sec : Int
deriving DecidableEq, Repr

/-- The zero `time.Time{}` value. -/
def GoTime.zero : GoTime := ⟨0⟩

/-- `time.Time.IsZero`. -/
def GoTime.isZero (t : GoTime) : Bool := t == GoTime.zero

/-! ## Key-value store interface (kv package)

`kv.Store` has `Setex(seconds, pairs) error`, `Get(key) (string, error)`
and `Delete(key) error`. We model an implementation as a record of pure
state transformers over a state type `σ`; the `Option String` component
is the Go `error` result (`none` = `nil`). -/

structure StoreImpl (σ : Type) where
  setex : Nat → List (String × String) → σ → Option String × σ
  get : String → σ → Option String × String
  del : String → σ → Option String × σ

/-- The `memory` store of the kv package: a plain `map[string]string`,
modelled as an association list where the most recent binding of a key
shadows earlier ones (so it sits at the head). The mutex only serializes
access and has no sequential semantics. -/
structure Memory where
  data : List (String × String)
deriving DecidableEq, Repr

/-- `kv.NewMemory()`: empty map. -/
def Memory.empty : Memory := ⟨[]⟩

/-- Go map read `m.data[key]` with the string zero value `""` for a
missing key (this is exactly what `memory.Get` returns). -/
def Memory.get (m : Memory) (k : String) : String :=
  match m.data.find? (fun p => p.1 == k) with
  | some p => p.2
  | none => ""

/-- The loop body of `memory.Setex`: `for _, pair := range pairs {
m.data[pair[0]] = pair[1] }`. Later pairs shadow earlier ones: each
assignment prepends, and reads scan from the head. Note the `seconds`
argument of `Setex` is not consulted anywhere in the source. -/
def Memory.setPairs (m : Memory) (pairs : List (String × String)) : Memory :=
  ⟨pairs.foldl (fun acc p => p :: acc) m.data⟩

/-- `memory.Delete`: `delete(m.data, key)`. -/
def Memory.del (m : Memory) (k : String) : Memory :=
  ⟨m.data.filter (fun p => p.1 != k)⟩

/-- The `memory` implementation of `kv.Store` (part_003 lines 59-79):
every operation returns a `nil` error. -/
def memoryImpl : StoreImpl Memory where
  setex := fun _seconds pairs st => (none, st.setPairs pairs)
  get := fun k st => (none, st.get k)
  del := fun k st => (none, st.del k)

/-! ## Contract-side expiry semantics (spec 4.1)

The Store contract in the spec says `SetWithExpiry` resets each key's
expiry to `ttlSeconds` from call time and `Get` reads an expired key as
absent. This second, spec-worded model is used only to compare the
in-memory implementation against the contract: entries carry an explicit
expiry deadline and reads take the current time. -/

/-- Contract model state: key, value, absolute expiry deadline. -/
def SpecMem := List (String × String × Nat)

/-- Contract-side `SetWithExpiry` at time `now`: each written key's
deadline becomes `now + ttl`. -/
def specSetex (now ttl : Nat) (pairs : List (String × String)) (m : SpecMem) : SpecMem :=
  pairs.foldl (fun acc p => (p.1, p.2, now + ttl) :: acc) m

/-- Contract-side `Get` at time `now`: an entry whose deadline has passed
reads as absent (empty string), indistinguishable from missing. -/
def specGet (now : Nat) (k : String) (m : SpecMem) : String :=
  match m.find? (fun e => e.1 == k) with
  | some e => if now < e.2.2 then e.2.1 else ""
  | none => ""

/-! ## Webhook event model (go-github parse results)

`github.ParseWebHook` produces a typed event; the handler only
distinguishes `*github.StarEvent`, `*github.PingEvent` and everything
else. Pointer fields of go-github structs are `Option`s; the generated
`GetX` accessors are nil-safe, but direct field selectors on a nil
pointer panic. -/

structure GoUser where
  login : Option String
deriving DecidableEq, Repr

structure GoRepository where
  name : Option String
  owner : Option GoUser
deriving DecidableEq, Repr

structure StarEventGo where
  action : Option String
  repo : Option GoRepository
  sender : Option GoUser
deriving DecidableEq, Repr

/-- A successfully parsed webhook event, as the handler's type switch
sees it: a star event, a ping event, or any other event type that
go-github knows how to parse (push, issues, ...). -/
inductive GoEvent where
  | star (e : StarEventGo)
  | ping
  | other
deriving DecidableEq, Repr

/-- go-github `(*User).GetLogin`: nil receiver or nil field reads "". -/
def userGetLogin : Option GoUser → String
  | none => ""
  | some u => u.login.getD ""

/-- Outcome of an HTTP handler: a response with a status code and the
store state after the request, or a runtime panic (nil-pointer
dereference) in the handler goroutine — no response is written. -/
inductive HandlerOut (σ : Type) where
  | resp (status : Nat) (st : σ)
  | crash
deriving DecidableEq, Repr

/-- Status code of an outcome, `none` when the handler panicked. -/
def HandlerOut.statusOf {σ : Type} : HandlerOut σ → Option Nat
  | .resp s _ => some s
  | .crash => none

/-- `storeStargazers` from starquery.go: no-op on the empty list,
otherwise one `Setex` of all pairs `(repo.Key(login), "true")` with a
24-hour (86400 second) expiry. -/
def storeStargazers {σ : Type} (impl : StoreImpl σ) (repo : Repo)
    (stargazers : List Stargazer) (st : σ) : Option String × σ :=
  if stargazers.length = 0 then (none, st)
  else impl.setex (24 * 60 * 60) (stargazers.map fun s => (repo.Key s.login, "true")) st

/-- `handleWebhook` from starquery.go, lines 108-165.

`sigOk` is the outcome of `github.ValidatePayload` (external library:
HMAC-SHA256 of the raw body against the signature header); `parsed` is
the outcome of `github.ParseWebHook` (`none` = parse error). The type
switch binds `starEvent` only in the star case; a ping returns 200
immediately, and for ANY other parsed event `starEvent` stays nil, so the
following `starEvent.Repo` field selector dereferences a nil pointer and
panics — likewise `starEvent.Repo.Owner` when a star event carries no
repo. The action switch stores via `storeStargazers` on "created",
deletes the key on "deleted", and rejects unknown actions with 400. -/
def handleWebhook {σ : Type} (impl : StoreImpl σ) (sigOk : Bool)
    (parsed : Option GoEvent) (st : σ) : HandlerOut σ :=
  if !sigOk then .resp 400 st
  else
    match parsed with
    | none => .resp 400 st
    | some GoEvent.ping => .resp 200 st
    | some GoEvent.other => .crash
    | some (GoEvent.star se) =>
      match se.repo with
      | none => .crash
      | some rp =>
        let owner := userGetLogin rp.owner
        if owner = "" then .resp 400 st
        else
          let name := rp.name.getD ""
          if name = "" then .resp 400 st
          else
            let repo : Repo := ⟨owner, name⟩
            let username := userGetLogin se.sender
            let action := se.action.getD ""
            if action = "created" then
              match storeStargazers impl repo [⟨username, ""⟩] st with
              | (some _, st2) => .resp 500 st2
              | (none, st2) => .resp 200 st2
            else if action = "deleted" then
              match impl.del (repo.Key username) st with
              | (some _, st2) => .resp 500 st2
              | (none, st2) => .resp 200 st2
            else .resp 400 st

/-- `handleStarredByUser` from starquery.go, lines 85-105: one `Get` on
the derived key; a store error is 500, an empty value 404, anything else
200. -/
def handleStarredByUser {σ : Type} (impl : StoreImpl σ)
    (org repoName username : String) (st : σ) : HandlerOut σ :=
  match impl.get (Repo.Key ⟨org, repoName⟩ username) st with
  | (some _, _) => .resp 500 st
  | (none, v) => if v = "" then .resp 404 st else .resp 200 st

/-! ## GraphQL fetcher (starquery.go, fetchStargazersFromGitHub)

Marshalling the query, the HTTP round trip and JSON decoding are
external; we model the function from the point where a response is in
hand: its status code and, if the body decoded, the decoded envelope.
`parseTime` stands for Go's `time.Parse(time.RFC3339, ·)` (`none` =
parse error). -/

structure GQLEdge where
  login : String
  cursor : String
deriving DecidableEq, Repr

structure GQLRateLimit where
  remaining : Int
  resetAt : String
deriving DecidableEq, Repr

structure GQLResp where
  edges : List GQLEdge
  rateLimit : GQLRateLimit
deriving DecidableEq, Repr

inductive FetchErr where
  | unexpectedStatus (code : Nat)
  | decodeResponse
  | parseResetTime
deriving DecidableEq, Repr

/-- The edge-to-fact loop at the end of `fetchStargazersFromGitHub`. -/
def edgesToStargazers (edges : List GQLEdge) : List Stargazer :=
  edges.map fun e => ⟨e.login, e.cursor⟩

/-- `fetchStargazersFromGitHub` from starquery.go, lines 304-352 (after
the request has been issued): non-200 status errors out; a body that does
not decode errors out; `resetAt` is parsed only when `remaining == 0`
(an unparsable timestamp then errors out), otherwise `resetTime` stays
the zero `time.Time{}`; on success the function returns the facts, the
reset time and the remaining count. -/
def fetchStargazersPost (parseTime : String → Option GoTime)
    (status : Nat) (decoded : Option GQLResp) :
    Except FetchErr (List Stargazer × GoTime × Int) :=
  if status ≠ 200 then .error (.unexpectedStatus status)
  else
    match decoded with
    | none => .error .decodeResponse
    | some resp =>
      if resp.rateLimit.remaining = 0 then
        match parseTime resp.rateLimit.resetAt with
        | none => .error .parseResetTime
        | some t => .ok (edgesToStargazers resp.edges, t, resp.rateLimit.remaining)
      else .ok (edgesToStargazers resp.edges, GoTime.zero, resp.rateLimit.remaining)

/-! ## Pagination sweep (starquery.go, fetchByRepo)

`fetchByRepo` loops: fetch a page at the current cursor, store its facts,
optionally wait out the rate limit, stop at the first empty page,
otherwise advance the cursor to the last fact's cursor. We embed the
loop as a trace generator: it records, in order, every fetch call (with
its cursor and result) and every store operation the loop issues, and a
separate interpreter applies the store operations to the in-memory
store. The rate-limit wait and context cancellation only affect timing,
not the store, and are not modelled; the fuel argument bounds the number
of pages, and runs that exhaust it are reported as incomplete (the Go
loop is unbounded). A store error would abort the loop in the source,
but the in-memory store never errors (see the theorem for C10), so the
trace model is exact for it. -/

/-- Store operations in the vocabulary of the `kv.Store` interface. -/
inductive StoreOp where
  | setexOp (seconds : Nat) (pairs : List (String × String))
  | delOp (key : String)
deriving DecidableEq, Repr

/-- One observable event of a sweep. -/
inductive SweepEv where
  | fetchEv (cursor : String) (result : List Stargazer)
  | storeEv (op : StoreOp)
deriving DecidableEq, Repr

inductive SweepErr where
  | fetchFailed (e : FetchErr)
  | outOfFuel
deriving DecidableEq, Repr

/-- Store operations issued by `storeStargazers` for one page: none for
an empty page, otherwise a single batched `Setex` with the 24-hour
expiry. -/
def storeStargazersOps (repo : Repo) (stargazers : List Stargazer) : List StoreOp :=
  if stargazers.length = 0 then []
  else [.setexOp (24 * 60 * 60) (stargazers.map fun s => (repo.Key s.login, "true"))]

/-- `stargazers[len(stargazers)-1].Cursor` (total, with a default that
the source never reaches because the empty case breaks first). -/
def lastCursor : List Stargazer → String
  | [] => ""
  | [s] => s.cursor
  | _ :: rest => lastCursor rest

/-- The loop of `fetchByRepo` (starquery.go, lines 189-223) as a trace:
fetch at `cursor`, record the page, record the store write of its facts,
stop if the page was empty, else recurse at the last fact's cursor.
`fetchFn` is the oracle for `fetchStargazersFromGitHub`'s observable
result. -/
def fetchByRepoTrace (fetchFn : String → Except FetchErr (List Stargazer × GoTime × Int))
    (repo : Repo) : Nat → String → Except SweepErr (List SweepEv)
  | 0, _ => .error .outOfFuel
  | fuel + 1, cursor =>
    match fetchFn cursor with
    | .error e => .error (.fetchFailed e)
    | .ok (stargazers, _resetTime, _remaining) =>
      let evs := SweepEv.fetchEv cursor stargazers ::
        (storeStargazersOps repo stargazers).map SweepEv.storeEv
      if stargazers.isEmpty then .ok evs
      else
        match fetchByRepoTrace fetchFn repo fuel (lastCursor stargazers) with
        | .error e => .error e
        | .ok rest => .ok (evs ++ rest)

/-- Effect of one store operation on the in-memory store (whose
operations never fail). -/
def applyOp : StoreOp → Memory → Memory
  | .setexOp _ pairs, st => st.setPairs pairs
  | .delOp k, st => st.del k

/-- Effect of a sweep trace on the in-memory store. -/
def applyEvs : List SweepEv → Memory → Memory
  | [], st => st
  | .fetchEv _ _ :: rest, st => applyEvs rest st
  | .storeEv op :: rest, st => applyEvs rest (applyOp op st)

/-- `fetchByRepo` against the in-memory store: the final store state of a
complete sweep started at the empty cursor. -/
def fetchByRepo (fetchFn : String → Except FetchErr (List Stargazer × GoTime × Int))
    (repo : Repo) (fuel : Nat) (st : Memory) : Except SweepErr Memory :=
  (fetchByRepoTrace fetchFn repo fuel "").map (fun evs => applyEvs evs st)

/-- Keys written by the store operations of a trace. -/
def writtenKeys : List SweepEv → List String
  | [] => []
  | .storeEv (.setexOp _ pairs) :: rest => pairs.map Prod.fst ++ writtenKeys rest
  | _ :: rest => writtenKeys rest

/-- All facts returned by the fetch calls of a trace. -/
def fetchedFacts : List SweepEv → List Stargazer
  | [] => []
  | .fetchEv _ stargazers :: rest => stargazers ++ fetchedFacts rest
  | _ :: rest => fetchedFacts rest

/-- Whether a trace contains any `Delete` operation. -/
def hasDel : List SweepEv → Bool
  | [] => false
  | .storeEv (.delOp _) :: _ => true
  | _ :: rest => hasDel rest

/-- Well-formedness checker for a complete sweep trace started at cursor
`c`: the first event is a fetch at exactly `c`; an empty page ends the
trace immediately; a non-empty page is followed by exactly one batched
`Setex` of that page's `(key, "true")` pairs with the 86400-second
expiry, before the next fetch, which happens at the page's last fact's
cursor. -/
def traceWF (repo : Repo) (c : String) : List SweepEv → Bool
  | SweepEv.fetchEv c2 stargazers :: rest =>
    (c2 == c) &&
    (if stargazers.isEmpty then rest.isEmpty
     else
       match rest with
       | SweepEv.storeEv (StoreOp.setexOp seconds pairs) :: rest2 =>
         (seconds == 24 * 60 * 60) &&
         (pairs == stargazers.map fun s => (repo.Key s.login, "true")) &&
         traceWF repo (lastCursor stargazers) rest2
       | _ => false)
  | _ => false

/-! ## Concrete fixtures used by witness theorems -/

/-- The repo used in the repository's own tests. -/
def exRepo : Repo := ⟨"coder", "coder"⟩

/-- A fetch oracle serving one page of two stargazers followed by the
empty end-marker page (the scenario of spec section 8). -/
def exFetch : String → Except FetchErr (List Stargazer × GoTime × Int) :=
  fun c =>
    if c = "" then .ok ([⟨"u1", "cur1"⟩, ⟨"u2", "cur2"⟩], GoTime.zero, 50)
    else .ok ([], GoTime.zero, 50)

/-- The trace of a complete sweep against `exFetch`. -/
def exTrace : List SweepEv :=
  [.fetchEv "" [⟨"u1", "cur1"⟩, ⟨"u2", "cur2"⟩],
   .storeEv (.setexOp (24 * 60 * 60)
     [(Repo.Key exRepo "u1", "true"), (Repo.Key exRepo "u2", "true")]),
   .fetchEv "cur2" []]

/-! ## Helper lemmas about the in-memory store -/

lemma Memory.setPairs_cons (m : Memory) (p : String × String) (ps : List (String × String)) :
    m.setPairs (p :: ps) = Memory.setPairs ⟨p :: m.data⟩ ps := rfl

lemma Memory.get_cons_ne (d : List (String × String)) (p : String × String) (k : String)
    (h : p.1 ≠ k) : Memory.get ⟨p :: d⟩ k = Memory.get ⟨d⟩ k := by
  simp [Memory.get, List.find?_cons, beq_eq_false_iff_ne.mpr h]

lemma Memory.get_setPairs_not_mem (pairs : List (String × String)) (m : Memory) (k : String)
    (h : k ∉ pairs.map Prod.fst) : Memory.get (m.setPairs pairs) k = m.get k := by
  induction pairs generalizing m with
  | nil => rfl
  | cons p ps ih =>
    simp only [List.map_cons, List.mem_cons, not_or] at h
    rw [Memory.setPairs_cons, ih ⟨p :: m.data⟩ h.2, Memory.get_cons_ne m.data p k (Ne.symm h.1)]

lemma Memory.get_setPairs_true (pairs : List (String × String)) (m : Memory) (k : String)
    (hmem : k ∈ pairs.map Prod.fst) (hval : ∀ p ∈ pairs, p.2 = "true") :
    Memory.get (m.setPairs pairs) k = "true" := by
  induction pairs generalizing m with
  | nil => simp at hmem
  | cons p ps ih =>
    rw [Memory.setPairs_cons]
    by_cases hk : k ∈ ps.map Prod.fst
    · exact ih ⟨p :: m.data⟩ hk (fun q hq => hval q (List.mem_cons_of_mem p hq))
    · have hpk : p.1 = k := by
        simp only [List.map_cons, List.mem_cons] at hmem
        tauto
      rw [Memory.get_setPairs_not_mem ps ⟨p :: m.data⟩ k hk]
      have : Memory.get ⟨p :: m.data⟩ k = p.2 := by
        simp [Memory.get, List.find?_cons, beq_iff_eq.mpr hpk]
      rw [this]
      exact hval p (List.mem_cons_self p ps)

lemma Memory.get_setPairs_single (m : Memory) (k v : String) :
    Memory.get (m.setPairs [(k, v)]) k = v := by
  simp [Memory.setPairs, Memory.get, List.find?_cons]

lemma Memory.get_del_self (m : Memory) (k : String) :
    Memory.get (m.del k) k = "" := by
  have hnone : (m.data.filter (fun p => p.1 != k)).find? (fun p => p.1 == k) = none := by
    rw [List.find?_eq_none]
    intro p hp
    have := (List.mem_filter.mp hp).2
    simpa [bne_iff_ne, beq_iff_eq] using this
  simp [Memory.del, Memory.get, hnone]

/-! ## Claim theorems (store algebra, signature gate, event dispatch) -/

/-- C8: on the in-memory store, `Setex` followed by `Get` on the same key
returns the written value, `Delete` followed by `Get` returns absent, and
`Get` on a never-written key (the fresh store) returns absent. -/
theorem memory_setex_get_delete_algebra :
    ∀ (st : Memory) (seconds : Nat) (k v : String),
      (memoryImpl.get k (memoryImpl.setex seconds [(k, v)] st).2).2 = v ∧
      (memoryImpl.get k (memoryImpl.del k st).2).2 = "" ∧
      (memoryImpl.get k Memory.empty).2 = "" := by
  intro st seconds k v
  refine ⟨?_, ?_, rfl⟩
  · exact Memory.get_setPairs_single st k v
  · exact Memory.get_del_self st k

/-- C2 counterexample: the in-memory `Setex` never records an expiry (the
`seconds` argument is unread), so the key written with a 1-second TTL
still reads back as present — and since no operation of the in-memory
store takes or stores a clock, the state is the same at every later
time, in particular after the TTL has elapsed. The contract-side model
(`specGet` at time 2 after a write at time 0 with TTL 1) reads absent, as
the claim requires. -/
theorem memory_ttl_ignored_cex :
    (memoryImpl.get "k" (memoryImpl.setex 1 [("k", "v")] Memory.empty).2).2 = "v" ∧
    specGet 2 "k" (specSetex 0 1 [("k", "v")] ([] : SpecMem)) = "" := by
  constructor
  · rfl
  · rfl

/-- C2 amended: the in-memory store implements no expiry. The state
produced by `Setex` is independent of `ttlSeconds`, and a `Get` of the
written key — which, the state carrying no clock, is the same read at
every later time — returns the written value rather than absent. -/
theorem memory_setex_ttl_independent :
    ∀ (s1 s2 : Nat) (pairs : List (String × String)) (st : Memory) (k v : String),
      memoryImpl.setex s1 pairs st = memoryImpl.setex s2 pairs st ∧
      (memoryImpl.get k (memoryImpl.setex s1 [(k, v)] st).2).2 = v := by
  intro s1 s2 pairs st k v
  exact ⟨rfl, Memory.get_setPairs_single st k v⟩

/-- C3: a webhook request whose body fails HMAC validation is rejected
with a 400 before the event is even parsed, over any store
implementation, and the store state returned is exactly the input state
(no store operation runs). -/
theorem webhook_bad_signature_rejected :
    ∀ (σ : Type) (impl : StoreImpl σ) (parsed : Option GoEvent) (st : σ),
      handleWebhook impl false parsed st = .resp 400 st := by
  intro σ impl parsed st
  rfl

/-- C1: dispatch of a validated, successfully parsed webhook event. A
ping event yields 200 with the store untouched, a star event with a
missing repo owner (resp. missing repo name) is rejected with a 400 and
the store untouched — but an event of any OTHER parsed type (e.g. a push
event) is NOT rejected with a client error: the type switch leaves
`starEvent` nil and the following `starEvent.Repo` selector panics, so no
response is written at all. This refutes the claim's middle conjunct
(the source's earlier revision and its test suite both expect a 400
here). -/
theorem webhook_nonstar_event_crashes :
    (∀ (σ : Type) (impl : StoreImpl σ) (st : σ),
      handleWebhook impl true (some GoEvent.ping) st = .resp 200 st) ∧
    (∀ (σ : Type) (impl : StoreImpl σ) (st : σ) (a : Option String)
        (snd : Option GoUser) (nm : Option String),
      handleWebhook impl true (some (GoEvent.star ⟨a, some ⟨nm, none⟩, snd⟩)) st
        = .resp 400 st) ∧
    (∀ (σ : Type) (impl : StoreImpl σ) (st : σ) (a : Option String) (snd : Option GoUser),
      handleWebhook impl true
          (some (GoEvent.star ⟨a, some ⟨none, some ⟨some "octocat"⟩⟩, snd⟩)) st
        = .resp 400 st) ∧
    (∀ (σ : Type) (impl : StoreImpl σ) (st : σ),
      handleWebhook impl true (some GoEvent.other) st = HandlerOut.crash) := by
  refine ⟨fun σ impl st => rfl, fun σ impl st a snd nm => rfl,
    fun σ impl st a snd => ?_, fun σ impl st => rfl⟩
  simp [handleWebhook, userGetLogin]

/-- C10: every operation of the in-memory store returns a nil error, so
with the API backed by it, neither the query endpoint nor the webhook
handler can ever answer 500. -/
theorem memory_never_errors_api_500_unreachable :
    (∀ (seconds : Nat) (pairs : List (String × String)) (st : Memory),
      (memoryImpl.setex seconds pairs st).1 = none) ∧
    (∀ (k : String) (st : Memory), (memoryImpl.get k st).1 = none) ∧
    (∀ (k : String) (st : Memory), (memoryImpl.del k st).1 = none) ∧
    (∀ (org repoName username : String) (st : Memory),
      (handleStarredByUser memoryImpl org repoName username st).statusOf ≠ some 500) ∧
    (∀ (sigOk : Bool) (parsed : Option GoEvent) (st : Memory),
      (handleWebhook memoryImpl sigOk parsed st).statusOf ≠ some 500) := by
  refine ⟨fun _ _ _ => rfl, fun _ _ => rfl, fun _ _ => rfl, ?_, ?_⟩
  · intro org repoName username st
    simp only [handleStarredByUser, memoryImpl]
    split <;> simp [HandlerOut.statusOf]
  · intro sigOk parsed st
    cases sigOk with
    | false => simp [handleWebhook, HandlerOut.statusOf]
    | true =>
      cases parsed with
      | none => simp [handleWebhook, HandlerOut.statusOf]
      | some ev =>
        cases ev with
        | ping => simp [handleWebhook, HandlerOut.statusOf]
        | other => simp [handleWebhook, HandlerOut.statusOf]
        | star se =>
          obtain ⟨a, rp, snd⟩ := se
          cases rp with
          | none => simp [handleWebhook, HandlerOut.statusOf]
          | some rp =>
            simp only [handleWebhook, Bool.not_true, Bool.false_eq_true, if_false,
              storeStargazers, memoryImpl]
            split
            · simp [HandlerOut.statusOf]
            · split
              · simp [HandlerOut.statusOf]
              · split
                · simp [HandlerOut.statusOf]
                · split
                  · simp [HandlerOut.statusOf]
                  · simp [HandlerOut.statusOf]

/-- C4 counterexample: a successful response with `remaining = 5` and a
server-sent `resetAt` that parses (under the parse oracle) to a non-zero
time still comes back with the zero `time.Time{}`: the fetcher does NOT
return whatever `resetAt` the server sent when `remaining > 0` — it
never even parses it. -/
theorem fetch_resetAt_ignored_cex :
    fetchStargazersPost (fun _ => some ⟨1680307200⟩) 200
        (some ⟨[], ⟨5, "2023-04-01T00:00:00Z"⟩⟩)
      = .ok ([], GoTime.zero, 5) ∧
    (⟨1680307200⟩ : GoTime) ≠ GoTime.zero := by
  refine ⟨rfl, ?_⟩
  intro h
  simp [GoTime.zero] at h

/-- C4 amended: on a successful (200, decoded) response the fetcher
returns the parsed `resetAt` only when `remaining == 0`; when
`remaining` is non-zero it returns the zero time regardless of what the
server sent, and an unparsable `resetAt` surfaces as a fetch error
exactly when `remaining == 0`. -/
theorem fetch_reset_time_handling (parseTime : String → Option GoTime) (resp : GQLResp) :
    (resp.rateLimit.remaining ≠ 0 →
      fetchStargazersPost parseTime 200 (some resp)
        = .ok (edgesToStargazers resp.edges, GoTime.zero, resp.rateLimit.remaining)) ∧
    (resp.rateLimit.remaining = 0 → parseTime resp.rateLimit.resetAt = none →
      fetchStargazersPost parseTime 200 (some resp) = .error .parseResetTime) ∧
    (∀ t : GoTime, resp.rateLimit.remaining = 0 → parseTime resp.rateLimit.resetAt = some t →
      fetchStargazersPost parseTime 200 (some resp)
        = .ok (edgesToStargazers resp.edges, t, 0)) := by
  refine ⟨?_, ?_, ?_⟩
  · intro h
    simp [fetchStargazersPost, h]
  · intro h hp
    simp [fetchStargazersPost, h, hp]
  · intro t h hp
    simp [fetchStargazersPost, h, hp]

/-- Witness for the C4 theorem: a concrete exhausted-rate-limit response
with an unparsable timestamp errors out. -/
theorem fetch_reset_time_handling_witness :
    fetchStargazersPost (fun _ => none) 200 (some ⟨[], ⟨0, "garbage"⟩⟩)
      = .error .parseResetTime :=
  (fetch_reset_time_handling (fun _ => none) ⟨[], ⟨0, "garbage"⟩⟩).2.1 rfl rfl

/-- C5: over the in-memory store, a valid star webhook with action
"created" for (owner, name, login) answers 200 and leaves the store in a
state where the lookup endpoint answers 200 (Found) for that triple; a
valid "deleted" webhook answers 200 — from ANY prior state, including one
where the key was never written — and leaves the store in a state where
the lookup answers 404 (NotFound). -/
theorem webhook_then_lookup_roundtrip (st : Memory) (owner name login : String)
    (ho : owner ≠ "") (hn : name ≠ "") :
    (handleWebhook memoryImpl true
        (some (GoEvent.star ⟨some "created", some ⟨some name, some ⟨some owner⟩⟩,
          some ⟨some login⟩⟩)) st
      = .resp 200 (st.setPairs [(Repo.Key ⟨owner, name⟩ login, "true")]) ∧
     handleStarredByUser memoryImpl owner name login
        (st.setPairs [(Repo.Key ⟨owner, name⟩ login, "true")])
      = .resp 200 (st.setPairs [(Repo.Key ⟨owner, name⟩ login, "true")])) ∧
    (handleWebhook memoryImpl true
        (some (GoEvent.star ⟨some "deleted", some ⟨some name, some ⟨some owner⟩⟩,
          some ⟨some login⟩⟩)) st
      = .resp 200 (st.del (Repo.Key ⟨owner, name⟩ login)) ∧
     handleStarredByUser memoryImpl owner name login
        (st.del (Repo.Key ⟨owner, name⟩ login))
      = .resp 404 (st.del (Repo.Key ⟨owner, name⟩ login))) := by
  refine ⟨⟨?_, ?_⟩, ⟨?_, ?_⟩⟩
  · simp [handleWebhook, userGetLogin, storeStargazers, memoryImpl, ho, hn]
  · simp [handleStarredByUser, memoryImpl, Memory.get_setPairs_single]
  · simp [handleWebhook, userGetLogin, memoryImpl, ho, hn]
  · simp [handleStarredByUser, memoryImpl, Memory.get_del_self]

/-- Witness for the C5 theorem at the repository's own test inputs. -/
theorem webhook_then_lookup_roundtrip_witness :
    (handleWebhook memoryImpl true
        (some (GoEvent.star ⟨some "created", some ⟨some "coder", some ⟨some "coder"⟩⟩,
          some ⟨some "kylecarbs"⟩⟩)) Memory.empty
      = .resp 200 (Memory.empty.setPairs [(Repo.Key ⟨"coder", "coder"⟩ "kylecarbs", "true")]) ∧
     handleStarredByUser memoryImpl "coder" "coder" "kylecarbs"
        (Memory.empty.setPairs [(Repo.Key ⟨"coder", "coder"⟩ "kylecarbs", "true")])
      = .resp 200 (Memory.empty.setPairs [(Repo.Key ⟨"coder", "coder"⟩ "kylecarbs", "true")])) ∧
    (handleWebhook memoryImpl true
        (some (GoEvent.star ⟨some "deleted", some ⟨some "coder", some ⟨some "coder"⟩⟩,
          some ⟨some "kylecarbs"⟩⟩)) Memory.empty
      = .resp 200 (Memory.empty.del (Repo.Key ⟨"coder", "coder"⟩ "kylecarbs")) ∧
     handleStarredByUser memoryImpl "coder" "coder" "kylecarbs"
        (Memory.empty.del (Repo.Key ⟨"coder", "coder"⟩ "kylecarbs"))
      = .resp 404 (Memory.empty.del (Repo.Key ⟨"coder", "coder"⟩ "kylecarbs"))) :=
  webhook_then_lookup_roundtrip Memory.empty "coder" "coder" "kylecarbs"
    (by decide) (by decide)

/-! ## Injectivity of the storage key derivation -/

lemma slash_split : ∀ (o1 o2 r1 r2 : List Char), '/' ∉ o1 → '/' ∉ o2 →
    o1 ++ '/' :: r1 = o2 ++ '/' :: r2 → o1 = o2 ∧ r1 = r2 := by
  intro o1
  induction o1 with
  | nil =>
    intro o2 r1 r2 h1 h2 h
    cases o2 with
    | nil => simpa using h
    | cons c o2t =>
      simp only [List.nil_append, List.cons_append, List.cons.injEq] at h
      exact absurd (by rw [← h.1] at h2; exact h2 (List.mem_cons_self _ _)) not_false
  | cons c o1t ih =>
    intro o2 r1 r2 h1 h2 h
    cases o2 with
    | nil =>
      simp only [List.nil_append, List.cons_append, List.cons.injEq] at h
      exact absurd (by rw [h.1] at h1; exact h1 (List.mem_cons_self _ _)) not_false
    | cons d o2t =>
      simp only [List.cons_append, List.cons.injEq] at h
      obtain ⟨hcd, htail⟩ := h
      have h1t : '/' ∉ o1t := fun hm => h1 (List.mem_cons_of_mem c hm)
      have h2t : '/' ∉ o2t := fun hm => h2 (List.mem_cons_of_mem d hm)
      obtain ⟨hh, hr⟩ := ih o2t r1 r2 h1t h2t htail
      exact ⟨by rw [hcd, hh], hr⟩

lemma Repo.Key_data (r : Repo) (u : String) :
    (Repo.Key r u).data
      = "stargazers:".data ++ (r.owner.data ++ '/' :: (r.name.data ++ '/' :: u.data)) := by
  have hs : ("/" : String).data = ['/'] := rfl
  simp [Repo.Key, String.data_append, hs, List.append_assoc]

/-- C9 counterexample: the key derivation is not injective over arbitrary
(owner, name, login) strings — a slash inside a component shifts the
separators, so two different triples collide on the same key. -/
theorem repo_key_not_injective_cex :
    Repo.Key ⟨"a/b", "c"⟩ "d" = Repo.Key ⟨"a", "b"⟩ "c/d" ∧
    ¬(("a/b" : String) = "a" ∧ ("c" : String) = "b" ∧ ("d" : String) = "c/d") := by
  constructor
  · rfl
  · intro h
    exact absurd h.1 (by decide)

/-- C9 amended: the key derivation is injective over (owner, name, login)
provided owner and name contain no slash — which holds for GitHub
identifiers. Equal keys then force all three components equal (the login
may even contain slashes). -/
theorem repo_key_injective_slash_free (o1 n1 l1 o2 n2 l2 : String)
    (ho1 : '/' ∉ o1.data) (ho2 : '/' ∉ o2.data)
    (hn1 : '/' ∉ n1.data) (hn2 : '/' ∉ n2.data)
    (h : Repo.Key ⟨o1, n1⟩ l1 = Repo.Key ⟨o2, n2⟩ l2) :
    o1 = o2 ∧ n1 = n2 ∧ l1 = l2 := by
  have hd := congrArg String.data h
  rw [Repo.Key_data, Repo.Key_data] at hd
  have hd2 := List.append_cancel_left hd
  obtain ⟨ho, hrest⟩ := slash_split o1.data o2.data _ _ ho1 ho2 hd2
  obtain ⟨hn, hl⟩ := slash_split n1.data n2.data _ _ hn1 hn2 hrest
  exact ⟨String.ext ho, String.ext hn, String.ext hl⟩

/-- Witness for the C9 theorem at slash-free GitHub identifiers. -/
theorem repo_key_injective_slash_free_witness :
    ("coder" : String) = "coder" ∧ ("coder" : String) = "coder" ∧
    ("kylecarbs" : String) = "kylecarbs" :=
  repo_key_injective_slash_free "coder" "coder" "kylecarbs" "coder" "coder" "kylecarbs"
    (by decide) (by decide) (by decide) (by decide) rfl

/-! ## Helper lemmas about sweep traces -/

lemma hasDel_fetch (c : String) (r : List Stargazer) (l : List SweepEv) :
    hasDel (SweepEv.fetchEv c r :: l) = hasDel l := rfl

lemma hasDel_setex (s : Nat) (p : List (String × String)) (l : List SweepEv) :
    hasDel (SweepEv.storeEv (StoreOp.setexOp s p) :: l) = hasDel l := rfl

lemma writtenKeys_fetch (c : String) (r : List Stargazer) (l : List SweepEv) :
    writtenKeys (SweepEv.fetchEv c r :: l) = writtenKeys l := rfl

lemma writtenKeys_setex (s : Nat) (p : List (String × String)) (l : List SweepEv) :
    writtenKeys (SweepEv.storeEv (StoreOp.setexOp s p) :: l)
      = p.map Prod.fst ++ writtenKeys l := rfl

lemma fetchedFacts_fetch (c : String) (r : List Stargazer) (l : List SweepEv) :
    fetchedFacts (SweepEv.fetchEv c r :: l) = r ++ fetchedFacts l := rfl

lemma fetchedFacts_store (op : StoreOp) (l : List SweepEv) :
    fetchedFacts (SweepEv.storeEv op :: l) = fetchedFacts l := rfl

lemma applyEvs_frame : ∀ (evs : List SweepEv) (st : Memory) (k : String),
    hasDel evs = false → k ∉ writtenKeys evs →
    Memory.get (applyEvs evs st) k = Memory.get st k := by
  intro evs
  induction evs with
  | nil => intro st k _ _; rfl
  | cons e rest ih =>
    intro st k hdel hk
    cases e with
    | fetchEv c r => exact ih st k hdel hk
    | storeEv op =>
      cases op with
      | delOp kk => simp [hasDel] at hdel
      | setexOp s pairs =>
        have hk1 : k ∉ pairs.map Prod.fst := fun hm => hk (List.mem_append_left _ hm)
        have hk2 : k ∉ writtenKeys rest := fun hm => hk (List.mem_append_right _ hm)
        calc Memory.get (applyEvs rest (st.setPairs pairs)) k
            = Memory.get (st.setPairs pairs) k := ih _ k hdel hk2
          _ = Memory.get st k := Memory.get_setPairs_not_mem pairs st k hk1

lemma applyEvs_written_true : ∀ (evs : List SweepEv) (st : Memory) (k : String),
    hasDel evs = false →
    (∀ s pairs, SweepEv.storeEv (StoreOp.setexOp s pairs) ∈ evs → ∀ p ∈ pairs, p.2 = "true") →
    k ∈ writtenKeys evs → Memory.get (applyEvs evs st) k = "true" := by
  intro evs
  induction evs with
  | nil => intro st k _ _ hk; simp [writtenKeys] at hk
  | cons e rest ih =>
    intro st k hdel hval hk
    cases e with
    | fetchEv c r =>
      exact ih st k hdel (fun s pairs hm => hval s pairs (List.mem_cons_of_mem _ hm)) hk
    | storeEv op =>
      cases op with
      | delOp kk => simp [hasDel] at hdel
      | setexOp s pairs =>
        by_cases hk2 : k ∈ writtenKeys rest
        · exact ih (st.setPairs pairs) k hdel
            (fun s2 p2 hm => hval s2 p2 (List.mem_cons_of_mem _ hm)) hk2
        · have hk1 : k ∈ pairs.map Prod.fst := by
            rcases List.mem_append.mp hk with hmm | hmm
            · exact hmm
            · exact absurd hmm hk2
          have hvv : ∀ p ∈ pairs, p.2 = "true" :=
            hval s pairs (List.mem_cons_self _ _)
          have hstep : applyEvs (SweepEv.storeEv (StoreOp.setexOp s pairs) :: rest) st
              = applyEvs rest (st.setPairs pairs) := rfl
          rw [hstep, applyEvs_frame rest (st.setPairs pairs) k hdel hk2]
          exact Memory.get_setPairs_true pairs st k hk1 hvv

lemma fetchByRepoTrace_shape
    (fetchFn : String → Except FetchErr (List Stargazer × GoTime × Int)) (repo : Repo) :
    ∀ (fuel : Nat) (c : String) (evs : List SweepEv),
      fetchByRepoTrace fetchFn repo fuel c = .ok evs →
      hasDel evs = false ∧
      (∀ s pairs, SweepEv.storeEv (StoreOp.setexOp s pairs) ∈ evs →
        ∀ p ∈ pairs, p.2 = "true") ∧
      (∀ sg ∈ fetchedFacts evs, repo.Key sg.login ∈ writtenKeys evs) := by
  intro fuel
  induction fuel with
  | zero => intro c evs h; simp [fetchByRepoTrace] at h
  | succ fuel ih =>
    intro c evs h
    rw [fetchByRepoTrace] at h
    cases hf : fetchFn c with
    | error e => rw [hf] at h; simp at h
    | ok res =>
      obtain ⟨sgs, rt, rem⟩ := res
      rw [hf] at h
      cases sgs with
      | nil =>
        simp only [List.isEmpty_nil, if_true, storeStargazersOps, List.length_nil,
          List.map_nil, Except.ok.injEq] at h
        subst h
        refine ⟨rfl, ?_, ?_⟩
        · intro s pairs hm
          simp at hm
        · intro sg hm
          rw [fetchedFacts_fetch] at hm
          simp [fetchedFacts] at hm
      | cons s0 stl =>
        simp only [List.isEmpty_cons, Bool.false_eq_true, if_false] at h
        cases hr : fetchByRepoTrace fetchFn repo fuel (lastCursor (s0 :: stl)) with
        | error e2 => rw [hr] at h; simp at h
        | ok rest =>
          rw [hr] at h
          simp only [storeStargazersOps, List.length_cons, Nat.succ_ne_zero, if_false,
            List.map_cons, List.map_nil, List.cons_append, List.nil_append,
            Except.ok.injEq] at h
          subst h
          obtain ⟨ih1, ih2, ih3⟩ := ih (lastCursor (s0 :: stl)) rest hr
          refine ⟨?_, ?_, ?_⟩
          · rw [hasDel_fetch, hasDel_setex]
            exact ih1
          · intro s pairs hm
            rcases List.mem_cons.mp hm with heq | hm2
            · cases heq
            rcases List.mem_cons.mp hm2 with heq | hm3
            · cases heq
              intro p hp
              rcases List.mem_cons.mp hp with hp0 | hp2
              · rw [hp0]
              · rcases List.mem_map.mp hp2 with ⟨sg, _, hsg⟩
                rw [← hsg]
            · exact ih2 s pairs hm3
          · intro sg hm
            rw [fetchedFacts_fetch, fetchedFacts_store] at hm
            rw [writtenKeys_fetch, writtenKeys_setex]
            rcases List.mem_append.mp hm with hm1 | hm2
            · refine List.mem_append_left _ ?_
              rcases List.mem_cons.mp hm1 with heq | hm1t
              · subst heq
                exact List.mem_map.mpr ⟨(repo.Key sg.login, "true"), List.mem_cons_self _ _, rfl⟩
              · exact List.mem_map.mpr ⟨(repo.Key sg.login, "true"),
                  List.mem_cons_of_mem _ (List.mem_map.mpr ⟨sg, hm1t, rfl⟩), rfl⟩
            · exact List.mem_append_right _ (ih3 sg hm2)

lemma traceWF_of_ok
    (fetchFn : String → Except FetchErr (List Stargazer × GoTime × Int)) (repo : Repo) :
    ∀ (fuel : Nat) (c : String) (evs : List SweepEv),
      fetchByRepoTrace fetchFn repo fuel c = .ok evs → traceWF repo c evs = true := by
  intro fuel
  induction fuel with
  | zero => intro c evs h; simp [fetchByRepoTrace] at h
  | succ fuel ih =>
    intro c evs h
    rw [fetchByRepoTrace] at h
    cases hf : fetchFn c with
    | error e => rw [hf] at h; simp at h
    | ok res =>
      obtain ⟨sgs, rt, rem⟩ := res
      rw [hf] at h
      cases sgs with
      | nil =>
        simp only [List.isEmpty_nil, if_true, storeStargazersOps, List.length_nil,
          List.map_nil, Except.ok.injEq] at h
        subst h
        simp [traceWF]
      | cons s0 stl =>
        simp only [List.isEmpty_cons, Bool.false_eq_true, if_false] at h
        cases hr : fetchByRepoTrace fetchFn repo fuel (lastCursor (s0 :: stl)) with
        | error e2 => rw [hr] at h; simp at h
        | ok rest =>
          rw [hr] at h
          simp only [storeStargazersOps, List.length_cons, Nat.succ_ne_zero, if_false,
            List.map_cons, List.map_nil, List.cons_append, List.nil_append,
            Except.ok.injEq] at h
          subst h
          have ihr := ih (lastCursor (s0 :: stl)) rest hr
          simp [traceWF, ihr]

/-! ## Claim theorems about the sweep -/

/-- C6: a complete sweep (any fetch oracle, any fuel that lets it finish)
never issues a `Delete`; every store key not among the keys derived from
the fetched facts reads exactly as before the sweep; and every fetched
fact's key reads "true" afterwards. A previously stored entry for a user
the fetch no longer returns is therefore left untouched (its key is not
written and not deleted). The first conjunct ties the trace to
`fetchByRepo`, the final-state function. -/
theorem sweep_frame_no_delete
    (fetchFn : String → Except FetchErr (List Stargazer × GoTime × Int)) (repo : Repo)
    (fuel : Nat) (st : Memory) (evs : List SweepEv)
    (h : fetchByRepoTrace fetchFn repo fuel "" = .ok evs) :
    fetchByRepo fetchFn repo fuel st = .ok (applyEvs evs st) ∧
    hasDel evs = false ∧
    (∀ k, k ∉ writtenKeys evs → Memory.get (applyEvs evs st) k = Memory.get st k) ∧
    (∀ sg ∈ fetchedFacts evs, Memory.get (applyEvs evs st) (repo.Key sg.login) = "true") := by
  obtain ⟨h1, h2, h3⟩ := fetchByRepoTrace_shape fetchFn repo fuel "" evs h
  refine ⟨by simp [fetchByRepo, h, Except.map], h1, ?_, ?_⟩
  · intro k hk
    exact applyEvs_frame evs st k h1 hk
  · intro sg hm
    exact applyEvs_written_true evs st (repo.Key sg.login) h1 h2 (h3 sg hm)

/-- Witness for the C6 theorem: a two-user page followed by the end
marker; an unrelated pre-existing key is untouched and the fetched users
read "true". -/
theorem sweep_frame_no_delete_witness :
    hasDel exTrace = false ∧
    Memory.get (applyEvs exTrace Memory.empty) "unrelated"
      = Memory.get Memory.empty "unrelated" ∧
    Memory.get (applyEvs exTrace Memory.empty) (Repo.Key exRepo "u1") = "true" := by
  have h := sweep_frame_no_delete exFetch exRepo 3 Memory.empty exTrace (by rfl)
  exact ⟨h.2.1, h.2.2.1 "unrelated" (by decide), h.2.2.2 ⟨"u1", "cur1"⟩ (by decide)⟩

/-- C7: the trace of a complete sweep, started from the empty cursor, is
well-formed: each page is fetched at the cursor the previous page's last
fact dictated, each non-empty page is immediately followed by exactly one
batched `Setex` of its `(key, "true")` pairs with the 24-hour expiry
before the next fetch, and the trace ends exactly at the first page that
returns zero facts. -/
theorem sweep_trace_wellformed
    (fetchFn : String → Except FetchErr (List Stargazer × GoTime × Int)) (repo : Repo)
    (fuel : Nat) (evs : List SweepEv)
    (h : fetchByRepoTrace fetchFn repo fuel "" = .ok evs) :
    traceWF repo "" evs = true :=
  traceWF_of_ok fetchFn repo fuel "" evs h

/-- Witness for the C7 theorem on the concrete two-page sweep. -/
theorem sweep_trace_wellformed_witness : traceWF exRepo "" exTrace = true :=
  sweep_trace_wellformed exFetch exRepo 3 exTrace (by rfl)

end Starquery
